import Mathlib

/-!
Verification of the factorial engine in `factorial_gmp.c` of the
Sdcb.Arithmetic repository.

The C function under study is:

  void calculate_factorial(unsigned long n, mpz_t result) {
      mpz_set_ui(result, 1);
      for (unsigned long i = 1; i <= n; ++i) {
          mpz_mul_ui(result, result, i);
      }
  }

together with the `main` that benchmarks it for 5 rounds at n = 100000
using the process clock and finally prints a 20-significant-digit
scientific-notation rendering of the result through a 1000000-bit float.

An `mpz_t` is an exact arbitrary-precision integer, modelled as `Int`.
An `unsigned long` is a 64-bit unsigned machine word, modelled as `Nat`
with explicit reduction modulo `2 ^ 64` where the C semantics wraps.
-/

/-- ULONG_MAX on the target platform (64-bit `unsigned long`). -/
def ULONG_MAX : Nat := 2 ^ 64 - 1

/-- Body of the loop in `calculate_factorial`, translated directly: the
guard is `i <= n`, each iteration multiplies the accumulator by `i` and
then increments `i`.  Here `i` ranges over mathematical naturals; in the
C code `i` is an `unsigned long`, but for `n < ULONG_MAX` the counter
never exceeds `n + 1 < 2 ^ 64`, so no wrap occurs and the two agree
(the wrapping semantics is modelled separately by `loopStep`/`loopRun`). -/
def factLoop (n i : Nat) (acc : Int) : Int :=
  if i ≤ n then factLoop n (i + 1) (acc * (i : Int)) else acc
termination_by n + 1 - i

/-- The C function `calculate_factorial(n, result)`: `mpz_set_ui(result, 1)`
overwrites whatever `result` held before the call, then the loop runs.
The returned `Int` is the final value left in `result`. -/
def calculate_factorial (n : Nat) (result : Int) : Int :=
  factLoop n 1 1

/-- One machine state of the loop in `calculate_factorial`, with the
C `unsigned long` counter `i` kept reduced modulo `2 ^ 64`. -/
structure LoopState where
  i : Nat
  acc : Int

/-- State right after `mpz_set_ui(result, 1)` and `i = 1`. -/
def loopInit : LoopState := { i := 1, acc := 1 }

/-- Loop guard `i <= n` checked before each iteration. -/
def loopGuard (n : Nat) (s : LoopState) : Prop := s.i ≤ n

instance (n : Nat) (s : LoopState) : Decidable (loopGuard n s) :=
  inferInstanceAs (Decidable (s.i ≤ n))

/-- One iteration of the loop body: `mpz_mul_ui(result, result, i)`
followed by `++i` with 64-bit unsigned wraparound. -/
def loopStep (s : LoopState) : LoopState :=
  { i := (s.i + 1) % 2 ^ 64, acc := s.acc * (s.i : Int) }

/-- Runs `k` iterations of the loop body. -/
def loopRun : Nat → LoopState → LoopState
  | 0, s => s
  | k + 1, s => loopRun k (loopStep s)

/-- C conversion of a signed integer value to `unsigned long`
(reduction modulo `2 ^ 64`), as happens when a caller passes a negative
argument such as `-1` to `calculate_factorial`. -/
def toUnsignedLong (x : Int) : Nat := (x % (2 ^ 64 : Int)).toNat

/-- Balanced product of the `len` consecutive integers `a+1, ..., a+len`,
recursing on a depth bound `d`; exact for `len ≤ 2 ^ d`.  This is a proof
device only: its recursion depth is `d`, so the kernel can evaluate it at
`len = 100000`, which direct recursion on `len` cannot do. -/
def prodRangeBal : Nat → Nat → Nat → Nat
  | 0, a, len => if len = 0 then 1 else a + 1
  | d + 1, a, len =>
      prodRangeBal d a (len / 2) * prodRangeBal d (a + len / 2) (len - len / 2)

/-- Power `10 ^ e` by binary squaring on a depth bound `d`; exact for
`e < 2 ^ d`.  Like `prodRangeBal`, a proof device that the kernel can
evaluate at exponents around 456000. -/
def powTenSq : Nat → Nat → Nat
  | 0, _ => 1
  | d + 1, e =>
      if e % 2 = 0 then powTenSq d (e / 2) * powTenSq d (e / 2)
      else powTenSq d (e / 2) * powTenSq d (e / 2) * 10

/-- The frame of a caller of `calculate_factorial`: the `mpz_t` it passes
as `result`, its other local variables, and the global state of the
program (the C file declares no mutable globals; the list stands for
whatever globals a larger program might have). -/
structure CallerFrame where
  result : Int
  otherLocals : List Int
  globals : List Int

/-- Effect of the call `calculate_factorial(n, result)` on the whole
caller frame: the body writes through `result` only. -/
def callCalculateFactorial (n : Nat) (f : CallerFrame) : CallerFrame :=
  { f with result := calculate_factorial n f.result }

/-- POSIX value of CLOCKS_PER_SEC used by the benchmark. -/
def CLOCKS_PER_SEC : Int := 1000000

/-- The expression `((double)(end - start)) / CLOCKS_PER_SEC` from `main`,
with the two `clock_t` readings as integers and the double modelled as an
exact rational. -/
def elapsedSeconds (startClock finishClock : Int) : Rat :=
  ((finishClock - startClock : Int) : Rat) / (CLOCKS_PER_SEC : Rat)

/-- One benchmark round of `main`: read the clock, run
`calculate_factorial`, read the clock again, and report the elapsed
seconds together with the computed value. -/
def timed_compute (n : Nat) (acc : Int) (startClock finishClock : Int) :
    Int × Rat :=
  (calculate_factorial n acc, elapsedSeconds startClock finishClock)

/-- One line of the standard output of `main`. -/
inductive OutputItem where
  | roundTimeLine (round : Nat) (n : Nat) (seconds : Rat)
  | approxSciLine (n : Nat) (sigDigits : Nat) (precisionBits : Nat)
  | exactIntegerLine (n : Nat) (value : Int)

/-- Whether an output line prints the exact integer value of the result. -/
def OutputItem.isExactIntegerLine : OutputItem → Bool
  | .exactIntegerLine _ _ => true
  | _ => false

/-- Whether an output line is a per-round elapsed-time line. -/
def OutputItem.isRoundTimeLine : OutputItem → Bool
  | .roundTimeLine _ _ _ => true
  | _ => false

/-- The sequence of lines `main` writes to standard output, as a function
of the ten clock readings: five `Round %d time taken ...` lines, then the
single `The factorial of %lu is %.20Fe` line, which renders the result
through a 1000000-bit float with 20 significant digits.  No line carries
the exact integer value. -/
def mainOutput (clocks : Nat → Int × Int) : List OutputItem :=
  (List.range 5).map (fun r =>
    OutputItem.roundTimeLine r 100000 (elapsedSeconds (clocks r).1 (clocks r).2))
  ++ [OutputItem.approxSciLine 100000 20 1000000]

/-! ## Helper lemmas -/

/-- The loop computes `acc` times the product of the integers from `i` to `n`. -/
lemma factLoop_eq_prod (n i : Nat) (acc : Int) :
    factLoop n i acc = acc * ∏ j in Finset.Ico i (n + 1), (j : Int) := by
  induction i, acc using factLoop.induct n with
  | case1 i acc h ih =>
    rw [factLoop, if_pos h, ih,
      Finset.prod_eq_prod_Ico_succ_bot (Nat.lt_succ_of_le h) (fun j => (j : Int))]
    ring
  | case2 i acc h =>
    rw [factLoop, if_neg h, Finset.Ico_eq_empty (by omega), Finset.prod_empty,
      mul_one]

/-- Entering the loop with accumulator 1 and counter 1 yields exactly `n!`. -/
lemma factLoop_one_one (n : Nat) : factLoop n 1 1 = (Nat.factorial n : Int) := by
  rw [factLoop_eq_prod, one_mul]
  rw [show (∏ j in Finset.Ico 1 (n + 1), (j : Int))
        = ((∏ j in Finset.Ico 1 (n + 1), j : Nat) : Int) by push_cast; rfl]
  rw [Finset.prod_Ico_id_eq_factorial]

/-- The value `calculate_factorial` leaves in the accumulator is `n!`,
whatever the accumulator held before. -/
lemma calculate_factorial_eq (n : Nat) (result : Int) :
    calculate_factorial n result = (Nat.factorial n : Int) :=
  factLoop_one_one n

/-- The balanced product equals the product of the range it covers. -/
lemma prodRangeBal_eq (d : Nat) : ∀ a len, len ≤ 2 ^ d →
    prodRangeBal d a len = ∏ j in Finset.Ico (a + 1) (a + len + 1), j := by
  induction d with
  | zero =>
    intro a len h
    interval_cases len
    · simp [prodRangeBal]
    · rw [prodRangeBal]
      simp
  | succ d ih =>
    intro a len h
    have hp : 2 ^ (d + 1) = 2 * 2 ^ d := by ring
    have h1 : len / 2 ≤ 2 ^ d := by omega
    have h2 : len - len / 2 ≤ 2 ^ d := by omega
    rw [prodRangeBal, ih a (len / 2) h1, ih (a + len / 2) (len - len / 2) h2,
      show a + len / 2 + (len - len / 2) + 1 = a + len + 1 by omega]
    exact Finset.prod_Ico_consecutive (fun j => j) (by omega) (by omega)

/-- The balanced product starting at 0 with a sufficient depth bound is `n!`. -/
lemma prodRangeBal_eq_factorial (d n : Nat) (h : n ≤ 2 ^ d) :
    prodRangeBal d 0 n = Nat.factorial n := by
  rw [prodRangeBal_eq d 0 n h]
  norm_num [Finset.prod_Ico_id_eq_factorial]

/-- Squaring-based power agrees with `10 ^ e` under its depth bound. -/
lemma powTenSq_eq (d : Nat) : ∀ e, e < 2 ^ d → powTenSq d e = 10 ^ e := by
  induction d with
  | zero =>
    intro e h
    interval_cases e
    rfl
  | succ d ih =>
    intro e h
    have hp : 2 ^ (d + 1) = 2 * 2 ^ d := by ring
    have he : e / 2 < 2 ^ d := by omega
    rw [powTenSq, ih (e / 2) he]
    by_cases h2 : e % 2 = 0
    · rw [if_pos h2, ← pow_add]
      congr 1
      omega
    · rw [if_neg h2, ← pow_add, ← pow_succ]
      congr 1
      omega

/-- Running one more iteration applies `loopStep` to the final state. -/
lemma loopRun_succ (k : Nat) : ∀ s, loopRun (k + 1) s = loopStep (loopRun k s) := by
  induction k with
  | zero => intro s; rfl
  | succ k ih =>
    intro s
    rw [show loopRun (k + 2) s = loopRun (k + 1) (loopStep s) from rfl, ih]
    rfl

/-- The counter after `k` iterations is `k + 1` reduced modulo `2 ^ 64`. -/
lemma loopRun_i (k : Nat) : (loopRun k loopInit).i = (k + 1) % 2 ^ 64 := by
  induction k with
  | zero =>
    rw [show loopRun 0 loopInit = loopInit from rfl]
    rw [Nat.mod_eq_of_lt (by norm_num)]
    rfl
  | succ k ih =>
    rw [loopRun_succ, loopStep, ih]
    simp [Nat.mod_add_mod]

/-- As long as the counter has not wrapped, the accumulator after `k`
iterations is `k!`. -/
lemma loopRun_acc (k : Nat) (h : k < 2 ^ 64) :
    (loopRun k loopInit).acc = (Nat.factorial k : Int) := by
  induction k with
  | zero => rfl
  | succ k ih =>
    rw [loopRun_succ, loopStep]
    have hk : k < 2 ^ 64 := by omega
    have hi : (loopRun k loopInit).i = k + 1 := by
      rw [loopRun_i, Nat.mod_eq_of_lt h]
    rw [hi, ih hk]
    rw [Nat.factorial_succ]
    push_cast
    ring

/-! ## Claim theorems -/

/-- C1: For every non-negative integer n, after `calculate_factorial` the
accumulator holds exactly the mathematical product 1·2·…·n, that is n!,
with n = 0 giving 1 by zero loop iterations (the guard fails at once);
in particular the results for 5, 10 and 20 are 120, 3628800 and
2432902008176640000. -/
theorem compute_eq_factorial : ∀ (n : Nat) (r : Int),
    calculate_factorial n r = (Nat.factorial n : Int) ∧
    calculate_factorial 0 r = 1 ∧
    ¬ loopGuard 0 loopInit ∧
    calculate_factorial 5 r = 120 ∧
    calculate_factorial 10 r = 3628800 ∧
    calculate_factorial 20 r = 2432902008176640000 := by
  intro n r
  refine ⟨calculate_factorial_eq n r, ?_, by decide, ?_, ?_, ?_⟩ <;>
    rw [calculate_factorial_eq] <;> decide

/-- C2: Calling `calculate_factorial` twice in succession with the same n
on the same reused accumulator yields the same exact value both times:
the prior accumulator value is fully overwritten, never appended to. -/
theorem compute_reuse_idempotent : ∀ (n : Nat) (r : Int),
    calculate_factorial n (calculate_factorial n r) = calculate_factorial n r :=
  fun _ _ => rfl

/-- C3 counterexample: at n1 = 0, n2 = 1 the claimed strict inequality
fails, because both factorials are 1. -/
theorem compute_monotone_counterexample :
    (0 : Nat) < 1 ∧
    calculate_factorial 0 (0 : Int) = 1 ∧
    calculate_factorial 1 (0 : Int) = 1 ∧
    ¬ (calculate_factorial 0 (0 : Int) < calculate_factorial 1 (0 : Int)) := by
  rw [calculate_factorial_eq 0 0, calculate_factorial_eq 1 0]
  refine ⟨by norm_num, by decide, by decide, by decide⟩

/-- C3 amended: for n2 > n1 ≥ 0 the factorial engine is monotone, and
strictly so except at the single pair n1 = 0, n2 = 1, where both values
are 1. -/
theorem compute_monotone_amended : ∀ (n1 n2 : Nat) (r : Int), n1 < n2 →
    calculate_factorial n1 r ≤ calculate_factorial n2 r ∧
    (¬ (n1 = 0 ∧ n2 = 1) → calculate_factorial n1 r < calculate_factorial n2 r) := by
  intro n1 n2 r h
  rw [calculate_factorial_eq n1 r, calculate_factorial_eq n2 r]
  constructor
  · exact_mod_cast Nat.factorial_le (Nat.le_of_lt h)
  · intro hne
    rcases Nat.eq_zero_or_pos n1 with h0 | hpos
    · have h2 : 1 < n2 := by omega
      have : Nat.factorial n1 < Nat.factorial n2 := by
        rw [h0]
        exact Nat.one_lt_factorial.2 h2
      exact_mod_cast this
    · exact_mod_cast (Nat.factorial_lt hpos).2 h

/-- C3 amended, witness at n1 = 0, n2 = 2. -/
theorem compute_monotone_amended_witness :
    (0 : Nat) < 2 ∧ ¬ ((0 : Nat) = 0 ∧ (2 : Nat) = 1) ∧
    calculate_factorial 0 (0 : Int) ≤ calculate_factorial 2 0 ∧
    calculate_factorial 0 (0 : Int) < calculate_factorial 2 0 :=
  ⟨by norm_num, by norm_num,
    (compute_monotone_amended 0 2 0 (by norm_num)).1,
    (compute_monotone_amended 0 2 0 (by norm_num)).2 (by norm_num)⟩

/-- C4 counterexample: a negative argument is not rejected.  The value -1
converts to ULONG_MAX under the unsigned parameter type, and the loop
guard holds at the initial state, so a multiplication occurs: computation
begins and no InvalidInput error exists anywhere in the code. -/
theorem negative_input_counterexample :
    toUnsignedLong (-1) = ULONG_MAX ∧
    loopGuard (toUnsignedLong (-1)) loopInit := by
  constructor
  · decide
  · decide

/-- C4 amended: the code performs no input validation and has no error
channel.  The parameter type is unsigned, so any negative argument in the
range of a 32-bit int is converted modulo 2^64 to a huge positive count,
and the multiplication loop begins (the guard holds at the first check)
instead of any rejection. -/
theorem negative_input_amended : ∀ x : Int, -(2 ^ 31) ≤ x → x < 0 →
    toUnsignedLong x = (2 ^ 64 + x).toNat ∧
    loopGuard (toUnsignedLong x) loopInit := by
  intro x h1 h2
  simp only [toUnsignedLong, loopGuard, loopInit]
  omega

/-- C4 amended, witness at x = -1. -/
theorem negative_input_amended_witness :
    -(2 ^ 31) ≤ (-1 : Int) ∧ (-1 : Int) < 0 ∧
    toUnsignedLong (-1) = ((2 : Int) ^ 64 + (-1)).toNat ∧
    loopGuard (toUnsignedLong (-1)) loopInit :=
  ⟨by norm_num, by norm_num,
    (negative_input_amended (-1) (by norm_num) (by norm_num)).1,
    (negative_input_amended (-1) (by norm_num) (by norm_num)).2⟩

set_option maxRecDepth 4000 in
set_option maxHeartbeats 4000000 in
/-- C5: the exact value of 100000! computed by `calculate_factorial` has
exactly 456574 decimal digits, its leading decimal digits are 28242, and
it ends in a run of (at least) 24999 trailing zeros coming from the
factors of 10 in the product. -/
theorem compute_100000_digits :
    calculate_factorial 100000 0 = (Nat.factorial 100000 : Int) ∧
    10 ^ 456573 ≤ Nat.factorial 100000 ∧
    Nat.factorial 100000 < 10 ^ 456574 ∧
    Nat.factorial 100000 / 10 ^ 456569 = 28242 ∧
    Nat.factorial 100000 % 10 ^ 24999 = 0 := by
  have hP : 0 < (10 : Nat) ^ 456569 := pow_pos (by norm_num) _
  have hfact : Nat.factorial 100000 = prodRangeBal 17 0 100000 :=
    (prodRangeBal_eq_factorial 17 100000 (by norm_num)).symm
  have h569 : powTenSq 19 456569 = 10 ^ 456569 :=
    powTenSq_eq 19 456569 (by norm_num)
  have h249 : powTenSq 15 24999 = 10 ^ 24999 :=
    powTenSq_eq 15 24999 (by norm_num)
  have hdm : prodRangeBal 17 0 100000 / powTenSq 19 456569 = 28242 ∧
      prodRangeBal 17 0 100000 % powTenSq 15 24999 = 0 := by decide
  have hdiv : Nat.factorial 100000 / 10 ^ 456569 = 28242 := by
    rw [hfact, ← h569]
    exact hdm.1
  have hmod : Nat.factorial 100000 % 10 ^ 24999 = 0 := by
    rw [hfact, ← h249]
    exact hdm.2
  refine ⟨calculate_factorial_eq 100000 0, ?_, ?_, hdiv, hmod⟩
  · have h1 : 28242 * 10 ^ 456569 ≤ Nat.factorial 100000 :=
      (Nat.le_div_iff_mul_le hP).1 (le_of_eq hdiv.symm)
    calc (10 : Nat) ^ 456573 = 10 ^ 4 * 10 ^ 456569 := by
          rw [← pow_add]
      _ ≤ 28242 * 10 ^ 456569 := Nat.mul_le_mul_right _ (by norm_num)
      _ ≤ Nat.factorial 100000 := h1
  · have h2 : Nat.factorial 100000 < 28243 * 10 ^ 456569 :=
      (Nat.div_lt_iff_lt_mul hP).1 (by rw [hdiv]; norm_num)
    calc Nat.factorial 100000 < 28243 * 10 ^ 456569 := h2
      _ ≤ 10 ^ 5 * 10 ^ 456569 := Nat.mul_le_mul_right _ (by norm_num)
      _ = 10 ^ 456574 := by rw [← pow_add]

/-- C6 counterexample: for concrete clock readings, no line of the output
of `main` carries the exact integer value of the factorial; the only line
after the five per-round time lines is the lossy scientific-notation
rendering. -/
theorem output_exact_counterexample :
    (mainOutput (fun _ => (0, 0))).any OutputItem.isExactIntegerLine = false := by
  decide

/-- C6 amended: whatever the clock readings, the output of `main` is the
five per-round elapsed-time lines followed by a single approximate
scientific-notation line (20 significant digits through a 1000000-bit
float); the exact integer value is never printed, so the approximate
rendering is the only rendering of the result, not optional extra output. -/
theorem output_approx_only : ∀ clocks : Nat → Int × Int,
    (mainOutput clocks).getLast?
        = some (OutputItem.approxSciLine 100000 20 1000000) ∧
    (∀ item ∈ mainOutput clocks, item.isExactIntegerLine = false) ∧
    (∀ item ∈ (mainOutput clocks).take 5, item.isRoundTimeLine = true) := by
  intro clocks
  refine ⟨List.getLast?_concat _, ?_, ?_⟩
  · intro item hmem
    rw [mainOutput, List.mem_append] at hmem
    rcases hmem with hm | hm
    · obtain ⟨r, _, rfl⟩ := List.mem_map.1 hm
      rfl
    · rw [List.mem_singleton] at hm
      rw [hm]
      rfl
  · intro item hmem
    rw [mainOutput] at hmem
    set l := (List.range 5).map (fun r =>
        OutputItem.roundTimeLine r 100000
          (elapsedSeconds (clocks r).1 (clocks r).2)) with hl
    have hlen : l.length = 5 := by simp [hl]
    rw [show (5 : Nat) = l.length from hlen.symm, List.take_left] at hmem
    rw [hl] at hmem
    obtain ⟨r, _, rfl⟩ := List.mem_map.1 hmem
    rfl

/-- C6 amended, witness at clock readings (0, 1) for every round. -/
theorem output_approx_only_witness :
    (mainOutput (fun _ => ((0 : Int), (1 : Int)))).getLast?
        = some (OutputItem.approxSciLine 100000 20 1000000) ∧
    OutputItem.isExactIntegerLine (OutputItem.approxSciLine 100000 20 1000000)
        = false :=
  ⟨(output_approx_only (fun _ => (0, 1))).1,
   (output_approx_only (fun _ => (0, 1))).2.1 _ (by simp [mainOutput])⟩

/-- C7: `calculate_factorial` has no side effect beyond overwriting the
caller-provided accumulator: its call leaves every other local variable
and all global state of the caller unchanged. -/
theorem compute_frame : ∀ (n : Nat) (f : CallerFrame),
    (callCalculateFactorial n f).otherLocals = f.otherLocals ∧
    (callCalculateFactorial n f).globals = f.globals ∧
    (callCalculateFactorial n f).result = calculate_factorial n f.result :=
  fun _ _ => ⟨rfl, rfl, rfl⟩

/-- C8: the elapsed time reported by a timed invocation is non-negative
whenever the clock does not run backwards, both for a single invocation
and across the 5 benchmark rounds of `main`; in this exact-rational model
of the double it is automatically finite. -/
theorem timed_compute_nonneg :
    (∀ (n : Nat) (acc startClock finishClock : Int),
      startClock ≤ finishClock →
      0 ≤ (timed_compute n acc startClock finishClock).2) ∧
    (∀ clocks : Fin 5 → Int × Int,
      (∀ r, (clocks r).1 ≤ (clocks r).2) →
      ∀ r, 0 ≤ (timed_compute 100000 0 (clocks r).1 (clocks r).2).2) := by
  have key : ∀ (n : Nat) (acc startClock finishClock : Int),
      startClock ≤ finishClock →
      0 ≤ (timed_compute n acc startClock finishClock).2 := by
    intro n acc s f h
    show 0 ≤ elapsedSeconds s f
    rw [elapsedSeconds]
    have hsub : (0 : Rat) ≤ ((f - s : Int) : Rat) := by
      have h0 : (0 : Int) ≤ f - s := by omega
      exact_mod_cast h0
    exact div_nonneg hsub (by norm_num [CLOCKS_PER_SEC])
  exact ⟨key, fun clocks h r => key 100000 0 _ _ (h r)⟩

/-- C8, witness: one invocation with clock readings 2 and 5. -/
theorem timed_compute_nonneg_witness :
    (2 : Int) ≤ 5 ∧ 0 ≤ (timed_compute 1 0 2 5).2 :=
  ⟨by norm_num, timed_compute_nonneg.1 1 0 2 5 (by norm_num)⟩

/-- C9: for every unsigned n below ULONG_MAX the loop checks its guard
with success exactly n times and then fails it, so it runs exactly n
iterations and terminates with the accumulator holding the value that
`calculate_factorial` returns; at n = ULONG_MAX the wrapped 64-bit
counter keeps the guard true after every iteration, so the loop never
exits. -/
theorem loop_iteration_count :
    (∀ n : Nat, n < ULONG_MAX →
      (∀ k, k < n → loopGuard n (loopRun k loopInit)) ∧
      ¬ loopGuard n (loopRun n loopInit) ∧
      (loopRun n loopInit).acc = calculate_factorial n 0) ∧
    (∀ k : Nat, loopGuard ULONG_MAX (loopRun k loopInit)) := by
  have hU : ULONG_MAX = 2 ^ 64 - 1 := rfl
  constructor
  · intro n hn
    have hn64 : n + 1 < 2 ^ 64 := by omega
    refine ⟨?_, ?_, ?_⟩
    · intro k hk
      show (loopRun k loopInit).i ≤ n
      rw [loopRun_i, Nat.mod_eq_of_lt (by omega)]
      omega
    · show ¬ (loopRun n loopInit).i ≤ n
      rw [loopRun_i, Nat.mod_eq_of_lt hn64]
      omega
    · rw [loopRun_acc n (by omega), calculate_factorial_eq]
  · intro k
    show (loopRun k loopInit).i ≤ ULONG_MAX
    rw [loopRun_i]
    have hmod : (k + 1) % 2 ^ 64 < 2 ^ 64 := Nat.mod_lt _ (by norm_num)
    omega

/-- C9, witness at n = 3 with the guard check after iteration 1. -/
theorem loop_iteration_count_witness :
    (3 : Nat) < ULONG_MAX ∧ (1 : Nat) < 3 ∧
    loopGuard 3 (loopRun 1 loopInit) ∧
    ¬ loopGuard 3 (loopRun 3 loopInit) ∧
    (loopRun 3 loopInit).acc = calculate_factorial 3 0 :=
  ⟨by norm_num [ULONG_MAX], by norm_num,
    (loop_iteration_count.1 3 (by norm_num [ULONG_MAX])).1 1 (by norm_num),
    (loop_iteration_count.1 3 (by norm_num [ULONG_MAX])).2.1,
    (loop_iteration_count.1 3 (by norm_num [ULONG_MAX])).2.2⟩

/-- C10: the value left in the accumulator by `calculate_factorial`
depends only on n, never on the accumulator value before the call: the
initial value is overwritten by `mpz_set_ui(result, 1)` and does not flow
into the result. -/
theorem result_independent_of_accumulator :
    ∀ (n : Nat) (r1 r2 : Int),
      calculate_factorial n r1 = calculate_factorial n r2 :=
  fun _ _ _ => rfl
